import Mathlib

/-!
Shallow embedding of `src/lambda_function_new.py` (the Twilio → AWS Transcribe →
OpenAI summarization Lambda) and proofs about its handler.

External collaborators (S3, Transcribe, OpenAI) are modelled as parameters of an
`Env` record; the handler itself is translated statement by statement from the
Python source.  The handler returns, besides the Python return value, the final
object-store state and a trace of the external calls it performed, so that
properties such as "no summarization call is made" are statable.
-/

/-- JSON-like values, modelling the Python dict/list/str data the handler
manipulates (the trigger payload and the parsed transcript object). -/
inductive Json where
  | null
  | bool (b : Bool)
  | num (n : Int)
  | str (s : String)
  | arr (elems : List Json)
  | obj (fields : List (String × Json))

/-- Dictionary subscript `j[k]`, as used on the event payload and the transcript
JSON.  A missing key models Python `KeyError`; subscripting a non-dict models the
`TypeError` Python raises there.  (Message texts approximate `str(e)`.) -/
def Json.getField (j : Json) (k : String) : Except String Json :=
  match j with
  | .obj fields =>
    match fields.find? (fun f => f.1 == k) with
    | some f => .ok f.2
    | none => .error ("KeyError: " ++ k)
  | _ => .error "TypeError: not a dict"

/-- List subscript `j[i]`, as used for `Records[0]` and `transcripts[0]`.
An out-of-range index models Python `IndexError`. -/
def Json.getIndex (j : Json) (i : Nat) : Except String Json :=
  match j with
  | .arr elems =>
    match elems.get? i with
    | some x => .ok x
    | none => .error "IndexError: list index out of range"
  | _ => .error "TypeError: not a list"

/-- Expects a JSON string, as the code does when it applies string operations
(`unquote_plus`, slicing) to a subscripted value. -/
def Json.getStr : Json → Except String String
  | .str s => .ok s
  | _ => .error "TypeError: not a string"

/-- Value of an ASCII hexadecimal digit, as used by percent-decoding. -/
def hexDigit (c : Char) : Option Nat :=
  if '0' ≤ c ∧ c ≤ '9' then some (c.toNat - 48)
  else if 'A' ≤ c ∧ c ≤ 'F' then some (c.toNat - 65 + 10)
  else if 'a' ≤ c ∧ c ≤ 'f' then some (c.toNat - 97 + 10)
  else none

/-- Character-level model of Python `urllib.parse.unquote_plus`: every `+`
becomes a space, and `%XX` with two hex digits becomes the character with code
`XX`; a `%` not followed by two hex digits is kept literally.  (Modelling note:
each decoded escape byte is taken as a single code point; runs of escapes that
form multi-byte UTF-8 sequences are not reassembled, which agrees with Python
for ASCII escape bytes, the only ones the claims exercise.) -/
def unquotePlusAux : List Char → List Char
  | [] => []
  | '+' :: rest => ' ' :: unquotePlusAux rest
  | '%' :: h1 :: h2 :: rest =>
    match hexDigit h1, hexDigit h2 with
    | some a, some b => Char.ofNat (16 * a + b) :: unquotePlusAux rest
    | _, _ => '%' :: unquotePlusAux (h1 :: h2 :: rest)
  | c :: rest => c :: unquotePlusAux rest

/-- Python `unquote_plus` on strings (see `unquotePlusAux`). -/
def unquote_plus (s : String) : String := ⟨unquotePlusAux s.data⟩

/-- Pure plus-to-space substitution, used to characterise `unquote_plus` on
inputs without percent escapes. -/
def plus2space (s : String) : String :=
  ⟨s.data.map (fun c => if c = '+' then ' ' else c)⟩

/-- Model of Python `str.split(".")`: cut the character list at every dot
(adjacent dots give empty groups, and a string without dots is one group). -/
def splitOnDot : List Char → List (List Char)
  | [] => [[]]
  | '.' :: rest => [] :: splitOnDot rest
  | c :: rest =>
    match splitOnDot rest with
    | [] => [[c]]
    | g :: gs => (c :: g) :: gs

/-- Model of Python `str.lower` for ASCII letters (the file extensions the
handler lowercases are ASCII). -/
def lowerChar (c : Char) : Char :=
  if 'A' ≤ c ∧ c ≤ 'Z' then Char.ofNat (c.toNat + 32) else c

/-- Python `key.split(".")[-1].lower()`, the media format derivation. -/
def extensionLower (key : String) : String :=
  ⟨((splitOnDot key.data).getLastD []).map lowerChar⟩

/-- Transcription job status, the values of
`status['TranscriptionJob']['TranscriptionJobStatus']` named in the code and in
the specification. -/
inductive JobStatus where
  | SUBMITTED
  | IN_PROGRESS
  | COMPLETED
  | FAILED
deriving DecidableEq

/-- The membership test `job_status in ['COMPLETED', 'FAILED']` of the poll
loop. -/
def isTerminal (s : JobStatus) : Bool :=
  s == JobStatus.COMPLETED || s == JobStatus.FAILED

/-- One external call made by the handler, recorded in the trace. -/
inductive Call where
  | startJob (jobName fileUri mediaFormat languageCode outputBucketName outputKey : String)
  | getStatus (jobName : String)
  | sleep (seconds : Nat)
  | getObject (bucket key : String)
  | summarizeCall (userText : String)
  | putObject (bucket key : String) (body : List Nat) (contentType : String)
deriving DecidableEq

/-- The poll loop `for _ in range(30): ...` of the handler, with `fuel`
remaining iterations and `i` the index of the next status sample.  Returns the
value of `job_status` after the loop together with the trace of
`get_transcription_job` and `time.sleep(10)` calls it made: the loop breaks at
the first COMPLETED or FAILED status, and otherwise sleeps 10 seconds and
retries until the fuel is spent, leaving the last observed status in
`job_status`.  The `fuel = 0` case never arises from the handler, which always
supplies fuel 30 (Python would leave `job_status` unbound there). -/
def pollLoop (st : Nat → JobStatus) (jn : String) : Nat → Nat → JobStatus × List Call
  | 0, _ => (JobStatus.SUBMITTED, [])
  | 1, i =>
    if isTerminal (st i) then (st i, [Call.getStatus jn])
    else (st i, [Call.getStatus jn, Call.sleep 10])
  | fuel + 2, i =>
    if isTerminal (st i) then (st i, [Call.getStatus jn])
    else
      let r := pollLoop st jn (fuel + 1) (i + 1)
      (r.1, Call.getStatus jn :: Call.sleep 10 :: r.2)

/-- Trace of a poll loop run that observes `k` non-terminal statuses and then a
terminal one. -/
def pollTrace (jn : String) : Nat → List Call
  | 0 => [Call.getStatus jn]
  | k + 1 => Call.getStatus jn :: Call.sleep 10 :: pollTrace jn k

/-- Trace of a poll loop run that exhausts `fuel` attempts without ever seeing
a terminal status (each attempt polls and then sleeps). -/
def pollTraceEx (jn : String) : Nat → List Call
  | 0 => []
  | k + 1 => Call.getStatus jn :: Call.sleep 10 :: pollTraceEx jn k

/-- Number of `get_transcription_job` calls in a trace. -/
def countPolls (tr : List Call) : Nat :=
  tr.countP (fun c => match c with | Call.getStatus _ => true | _ => false)

/-- UTF-8 encoding of one character (the byte values of Python
`summary.encode("utf-8")` for that character). -/
def utf8EncodeChar (c : Char) : List Nat :=
  if c.toNat < 128 then [c.toNat]
  else if c.toNat < 2048 then
    [192 + c.toNat / 64, 128 + c.toNat % 64]
  else if c.toNat < 65536 then
    [224 + c.toNat / 4096, 128 + c.toNat / 64 % 64, 128 + c.toNat % 64]
  else
    [240 + c.toNat / 262144, 128 + c.toNat / 4096 % 64, 128 + c.toNat / 64 % 64,
      128 + c.toNat % 64]

/-- UTF-8 encoding of a character list. -/
def utf8EncodeList : List Char → List Nat
  | [] => []
  | c :: cs => utf8EncodeChar c ++ utf8EncodeList cs

/-- Python `s.encode("utf-8")`, as a list of byte values. -/
def utf8Encode (s : String) : List Nat := utf8EncodeList s.data

/-- Decoding of one UTF-8 sequence from the front of a byte list: the decoded
character and the remaining bytes, or `none` on a malformed prefix (stray
continuation byte, truncated sequence, or invalid leading byte). -/
def decodeStep : List Nat → Option (Char × List Nat)
  | [] => none
  | b :: bs =>
    if b < 128 then some (Char.ofNat b, bs)
    else if b < 192 then none
    else if b < 224 then
      match bs with
      | b1 :: bs1 =>
        if 128 ≤ b1 ∧ b1 < 192 then
          some (Char.ofNat ((b - 192) * 64 + (b1 - 128)), bs1)
        else none
      | [] => none
    else if b < 240 then
      match bs with
      | b1 :: b2 :: bs2 =>
        if (128 ≤ b1 ∧ b1 < 192) ∧ (128 ≤ b2 ∧ b2 < 192) then
          some (Char.ofNat ((b - 224) * 4096 + (b1 - 128) * 64 + (b2 - 128)), bs2)
        else none
      | _ => none
    else if b < 248 then
      match bs with
      | b1 :: b2 :: b3 :: bs3 =>
        if (128 ≤ b1 ∧ b1 < 192) ∧ (128 ≤ b2 ∧ b2 < 192) ∧ (128 ≤ b3 ∧ b3 < 192) then
          some (Char.ofNat
            ((b - 240) * 262144 + (b1 - 128) * 4096 + (b2 - 128) * 64 + (b3 - 128)), bs3)
        else none
      | _ => none
    else none

/-- UTF-8 decoding of a byte list into characters, one `decodeStep` at a time;
the fuel bounds the number of characters and any fuel at least the length of
the list is enough, since every step consumes at least one byte. -/
def utf8DecodeLoop : Nat → List Nat → Option (List Char)
  | _, [] => some []
  | 0, _ :: _ => none
  | fuel + 1, b :: bs =>
    match decodeStep (b :: bs) with
    | none => none
    | some (c, rest) =>
      match utf8DecodeLoop fuel rest with
      | some cs => some (c :: cs)
      | none => none

/-- UTF-8 decoding of a byte list into characters. -/
def utf8DecodeList (bs : List Nat) : Option (List Char) :=
  utf8DecodeLoop bs.length bs

/-- UTF-8 decoding of a byte list into a string. -/
def utf8Decode (bs : List Nat) : Option String :=
  match utf8DecodeList bs with
  | some cs => some ⟨cs⟩
  | none => none

/-- The object store: an association list from (bucket, key) to
(body bytes, content type); a later `put` of the same key shadows an earlier
one. -/
abbrev Store := List ((String × String) × (List Nat × String))

/-- Model of `s3.put_object(Bucket=b, Key=k, Body=body, ContentType=ct)`. -/
def put_object (st : Store) (b k : String) (body : List Nat) (ct : String) : Store :=
  ((b, k), (body, ct)) :: st

/-- Model of `s3.get_object(Bucket=b, Key=k)`: `none` models the `NoSuchKey`
client error. -/
def get_object (st : Store) (b k : String) : Option (List Nat × String) :=
  match st.find? (fun e => e.1.1 == b && e.1.2 == k) with
  | some e => some e.2
  | none => none

/-- The external collaborators of one invocation: the random job-name suffix
(`uuid.uuid4().hex[:8]`), the outcome of `start_transcription_job`, the status
returned by the `i`-th `get_transcription_job` call, `json.loads` on fetched
bytes, the OpenAI chat completion (transcript text to summary, or an error),
and the outcome of `s3.put_object`.  An `Except.error m` field models the
corresponding Python call raising an exception whose `str` is `m`. -/
structure Env where
  jobSuffix : String
  startJob : Except String Unit
  statuses : Nat → JobStatus
  parseJson : List Nat → Except String Json
  summarize : String → Except String String
  putResult : Except String Unit

/-- Observable outcome of one invocation: the handler return value, the final
object-store state, and the trace of external calls. -/
structure Outcome where
  result : Json
  store : Store
  trace : List Call

/-- The `except` branch value `{"error": str(e)}`. -/
def errorJson (m : String) : Json := Json.obj [("error", Json.str m)]

/-- The success return value `{"status": "success", "summary_file": uri}`. -/
def successJson (uri : String) : Json :=
  Json.obj [("status", Json.str "success"), ("summary_file", Json.str uri)]

/-- Step 1 of the handler: `bucket = event['Records'][0]['s3']['bucket']['name']`
and `key = unquote_plus(event['Records'][0]['s3']['object']['key'])`, with each
subscript able to raise. -/
def decodeEvent (event : Json) : Except String (String × String) :=
  match event.getField "Records" with
  | .error m => .error m
  | .ok records =>
    match records.getIndex 0 with
    | .error m => .error m
    | .ok r0 =>
      match r0.getField "s3" with
      | .error m => .error m
      | .ok s3rec =>
        match s3rec.getField "bucket" with
        | .error m => .error m
        | .ok bucketRec =>
          match bucketRec.getField "name" with
          | .error m => .error m
          | .ok nameVal =>
            match nameVal.getStr with
            | .error m => .error m
            | .ok bucket =>
              match s3rec.getField "object" with
              | .error m => .error m
              | .ok objectRec =>
                match objectRec.getField "key" with
                | .error m => .error m
                | .ok keyVal =>
                  match keyVal.getStr with
                  | .error m => .error m
                  | .ok rawKey => .ok (bucket, unquote_plus rawKey)

/-- Step 4 of the handler:
`transcript_text = transcript_json['results']['transcripts'][0]['transcript']`,
with each subscript able to raise, and the resulting value used as a string. -/
def extractTranscript (j : Json) : Except String String :=
  match j.getField "results" with
  | .error m => .error m
  | .ok results =>
    match results.getField "transcripts" with
    | .error m => .error m
    | .ok transcripts =>
      match transcripts.getIndex 0 with
      | .error m => .error m
      | .ok t0 =>
        match t0.getField "transcript" with
        | .error m => .error m
        | .ok tVal => tVal.getStr

/-- Structural presence of the path `results.transcripts[0].transcript` (with a
string value) in a transcript JSON object. -/
def transcriptPathPresent (j : Json) : Prop :=
  ∃ results transcripts t0 s,
    j.getField "results" = .ok results ∧
    results.getField "transcripts" = .ok transcripts ∧
    transcripts.getIndex 0 = .ok t0 ∧
    t0.getField "transcript" = .ok (Json.str s)

/-- The `lambda_handler` of `src/lambda_function_new.py`: decode the S3 event,
start the Transcribe job, poll up to 30 times sleeping 10 seconds between
polls, raise if the final status is FAILED, fetch and parse the transcript
object, summarize it, write the summary under `summaries/{job_name}_summary.txt`
and return the success record; the single `try/except` converts any raised
error into `{"error": str(e)}`. -/
def lambda_handler (env : Env) (store : Store) (event : Json) : Outcome :=
  match decodeEvent event with
  | .error m => ⟨errorJson m, store, []⟩
  | .ok (bucket, key) =>
    let file_uri := "s3://" ++ bucket ++ "/" ++ key
    let job_name := "twilio-" ++ env.jobSuffix
    let media_format := extensionLower key
    let transcript_key := "transcripts/" ++ job_name ++ ".json"
    let tr0 := [Call.startJob job_name file_uri media_format "en-US" bucket transcript_key]
    match env.startJob with
    | .error m => ⟨errorJson m, store, tr0⟩
    | .ok _ =>
      let poll := pollLoop env.statuses job_name 30 0
      let tr1 := tr0 ++ poll.2
      if poll.1 = JobStatus.FAILED then
        ⟨errorJson "Transcription failed", store, tr1⟩
      else
        let tr2 := tr1 ++ [Call.getObject bucket transcript_key]
        match get_object store bucket transcript_key with
        | none => ⟨errorJson "NoSuchKey", store, tr2⟩
        | some (body, _) =>
          match env.parseJson body with
          | .error m => ⟨errorJson m, store, tr2⟩
          | .ok transcript_json =>
            match extractTranscript transcript_json with
            | .error m => ⟨errorJson m, store, tr2⟩
            | .ok transcript_text =>
              let tr3 := tr2 ++ [Call.summarizeCall transcript_text]
              match env.summarize transcript_text with
              | .error m => ⟨errorJson m, store, tr3⟩
              | .ok summary =>
                let summary_key := "summaries/" ++ job_name ++ "_summary.txt"
                let tr4 := tr3 ++
                  [Call.putObject bucket summary_key (utf8Encode summary) "text/plain"]
                match env.putResult with
                | .error m => ⟨errorJson m, store, tr4⟩
                | .ok _ =>
                  ⟨successJson ("s3://" ++ bucket ++ "/" ++ summary_key),
                    put_object store bucket summary_key (utf8Encode summary) "text/plain",
                    tr4⟩

/-- A sample S3 event record with the given bucket name and (still encoded)
object key, shaped as in §6 of the specification. -/
def mkRecord (b k : String) : Json :=
  Json.obj [("s3", Json.obj [("bucket", Json.obj [("name", Json.str b)]),
    ("object", Json.obj [("key", Json.str k)])])]

/-- A sample trigger payload whose first record is `mkRecord b k`, followed by
arbitrary further records. -/
def mkEvent (b k : String) (rest : List Json) : Json :=
  Json.obj [("Records", Json.arr (mkRecord b k :: rest))]

/-- A well-formed transcript object, as Transcribe writes it. -/
def tjSample : Json :=
  Json.obj [("results", Json.obj [("transcripts",
    Json.arr [Json.obj [("transcript", Json.str "hello")]])])]

/-- A transcript object whose `transcripts` list is empty, so the path
`results.transcripts[0].transcript` is absent. -/
def tjNoTranscript : Json :=
  Json.obj [("results", Json.obj [("transcripts", Json.arr [])])]

/-- A sample trigger payload (scenario 1 of the specification). -/
def eventSample : Json := mkEvent "medrecs" "calls/visit1.wav" []

/-- A store already holding the transcription output object for job
`twilio-abcd1234` (as the transcription service would have written it). -/
def storeSample : Store :=
  [(("medrecs", "transcripts/twilio-abcd1234.json"), ([], "application/json"))]

/-- Collaborators for which every poll reports IN_PROGRESS and every other
stage succeeds. -/
def envAllInProgress : Env :=
  { jobSuffix := "abcd1234", startJob := .ok (),
    statuses := fun _ => JobStatus.IN_PROGRESS,
    parseJson := fun _ => .ok tjSample,
    summarize := fun _ => .ok "S", putResult := .ok () }

/-- Collaborators for which the very first poll reports FAILED. -/
def envFirstFailed : Env :=
  { jobSuffix := "abcd1234", startJob := .ok (),
    statuses := fun _ => JobStatus.FAILED,
    parseJson := fun _ => .ok tjSample,
    summarize := fun _ => .ok "S", putResult := .ok () }

/-- Collaborators for which the second poll reports COMPLETED and every stage
succeeds (scenario 1, shortened by one poll). -/
def envQuickComplete : Env :=
  { jobSuffix := "abcd1234", startJob := .ok (),
    statuses := fun i => if i = 0 then JobStatus.IN_PROGRESS else JobStatus.COMPLETED,
    parseJson := fun _ => .ok tjSample,
    summarize := fun _ => .ok "S", putResult := .ok () }

/-- Collaborators whose transcript object parses to `tjNoTranscript`. -/
def envNoTranscript : Env :=
  { jobSuffix := "abcd1234", startJob := .ok (),
    statuses := fun i => if i = 0 then JobStatus.IN_PROGRESS else JobStatus.COMPLETED,
    parseJson := fun _ => .ok tjNoTranscript,
    summarize := fun _ => .ok "S", putResult := .ok () }

theorem countPolls_nil : countPolls [] = 0 := rfl

theorem countPolls_cons (c : Call) (tr : List Call) :
    countPolls (c :: tr) =
      countPolls tr + (if (match c with | Call.getStatus _ => true | _ => false) then 1 else 0) := by
  simp [countPolls, List.countP_cons]

theorem countPolls_pollTrace (jn : String) : ∀ k, countPolls (pollTrace jn k) = k + 1 := by
  intro k
  induction k with
  | zero => rfl
  | succ k ih => simp [pollTrace, countPolls_cons, ih]

theorem countPolls_pollTraceEx (jn : String) : ∀ k, countPolls (pollTraceEx jn k) = k := by
  intro k
  induction k with
  | zero => rfl
  | succ k ih => simp [pollTraceEx, countPolls_cons, ih]

/-- The loop stops at the first terminal status: if the statuses at offsets
`0, …, k-1` from `i` are non-terminal and the one at offset `k` is terminal,
with `k` within the remaining fuel, the loop returns that status after `k + 1`
polls with a sleep after each non-terminal one. -/
theorem pollLoop_first_terminal (st : Nat → JobStatus) (jn : String) :
    ∀ k fuel i, k < fuel → isTerminal (st (i + k)) = true →
      (∀ d, d < k → isTerminal (st (i + d)) = false) →
      pollLoop st jn fuel i = (st (i + k), pollTrace jn k) := by
  intro k
  induction k with
  | zero =>
    intro fuel i hk hterm _
    match fuel, hk with
    | 1, _ => simp_all [pollLoop, pollTrace]
    | f + 2, _ => simp_all [pollLoop, pollTrace]
  | succ k ih =>
    intro fuel i hk hterm hbefore
    match fuel, hk with
    | f + 2, hk =>
      have h0 : isTerminal (st i) = false := by
        have := hbefore 0 (Nat.succ_pos k)
        simpa using this
      have hterm' : isTerminal (st (i + 1 + k)) = true := by
        have : i + 1 + k = i + (k + 1) := by omega
        rw [this]; exact hterm
      have hbefore' : ∀ d, d < k → isTerminal (st (i + 1 + d)) = false := by
        intro d hd
        have : i + 1 + d = i + (d + 1) := by omega
        rw [this]; exact hbefore (d + 1) (by omega)
      have hrec := ih (f + 1) (i + 1) (by omega) hterm' hbefore'
      have : i + 1 + k = i + (k + 1) := by omega
      simp [pollLoop, h0, hrec, pollTrace, this]

/-- If no terminal status appears within the fuel, the loop exhausts all its
attempts, sleeping after every poll, and leaves the last observed status. -/
theorem pollLoop_exhausted (st : Nat → JobStatus) (jn : String) :
    ∀ fuel i, 1 ≤ fuel → (∀ d, d < fuel → isTerminal (st (i + d)) = false) →
      pollLoop st jn fuel i = (st (i + (fuel - 1)), pollTraceEx jn fuel) := by
  intro fuel
  induction fuel with
  | zero => intro i h; omega
  | succ f ih =>
    intro i _ hnt
    match f, ih with
    | 0, _ =>
      have h0 : isTerminal (st i) = false := by simpa using hnt 0 (by omega)
      simp [pollLoop, h0, pollTraceEx]
    | f + 1, ih =>
      have h0 : isTerminal (st i) = false := by simpa using hnt 0 (by omega)
      have hnt' : ∀ d, d < f + 1 → isTerminal (st (i + 1 + d)) = false := by
        intro d hd
        have : i + 1 + d = i + (d + 1) := by omega
        rw [this]; exact hnt (d + 1) (by omega)
      have hrec := ih (i + 1) (by omega) hnt'
      have harith : i + 1 + (f + 1 - 1) = i + (f + 2 - 1) := by omega
      have harith2 : i + 1 + f = i + (f + 1) := by omega
      simp [pollLoop, h0, hrec, pollTraceEx, harith, harith2]

/-- The loop never polls more often than its fuel allows. -/
theorem pollLoop_polls_le (st : Nat → JobStatus) (jn : String) :
    ∀ fuel i, countPolls (pollLoop st jn fuel i).2 ≤ fuel := by
  intro fuel
  induction fuel with
  | zero => intro i; simp [pollLoop, countPolls_nil]
  | succ f ih =>
    intro i
    match f, ih with
    | 0, _ =>
      by_cases h : isTerminal (st i) = true <;>
        simp [pollLoop, h, countPolls_cons, countPolls_nil]
    | f + 1, ih =>
      by_cases h : isTerminal (st i) = true
      · simp [pollLoop, h, countPolls_cons, countPolls_nil]
      · have := ih (i + 1)
        simp only [Bool.not_eq_true] at h
        simp [pollLoop, h, countPolls_cons]
        omega

/-- If the status left in `job_status` after the loop is non-terminal, the loop
necessarily ran out of fuel, polling exactly `fuel` times. -/
theorem pollLoop_nonterminal_polls (st : Nat → JobStatus) (jn : String) :
    ∀ fuel i, 1 ≤ fuel → isTerminal (pollLoop st jn fuel i).1 = false →
      countPolls (pollLoop st jn fuel i).2 = fuel := by
  intro fuel
  induction fuel with
  | zero => intro i h; omega
  | succ f ih =>
    intro i _ hnt
    match f, ih with
    | 0, _ =>
      by_cases h : isTerminal (st i) = true
      · rw [pollLoop] at hnt; simp [h] at hnt
      · simp only [Bool.not_eq_true] at h
        simp [pollLoop, h, countPolls_cons, countPolls_nil]
    | f + 1, ih =>
      by_cases h : isTerminal (st i) = true
      · rw [pollLoop] at hnt; simp [h] at hnt
      · simp only [Bool.not_eq_true] at h
        rw [pollLoop] at hnt; simp [h] at hnt
        have := ih (i + 1) (by omega) hnt
        simp [pollLoop, h, countPolls_cons, this]

/-- Every entry of the loop trace is a status poll or a 10-second sleep. -/
theorem pollLoop_mem (st : Nat → JobStatus) (jn : String) :
    ∀ fuel i c, c ∈ (pollLoop st jn fuel i).2 →
      c = Call.getStatus jn ∨ c = Call.sleep 10 := by
  intro fuel
  induction fuel with
  | zero => intro i c hc; simp [pollLoop] at hc
  | succ f ih =>
    intro i c hc
    match f, ih with
    | 0, _ =>
      by_cases h : isTerminal (st i) = true <;> simp [pollLoop, h] at hc <;> tauto
    | f + 1, ih =>
      by_cases h : isTerminal (st i) = true
      · simp [pollLoop, h] at hc; tauto
      · simp only [Bool.not_eq_true] at h
        simp [pollLoop, h] at hc
        rcases hc with hc | hc | hc
        · exact Or.inl hc
        · exact Or.inr hc
        · exact ih (i + 1) c hc

theorem char_toNat_lt (c : Char) : c.toNat < 1114112 := by
  have heq : c.toNat = c.val.toNat := rfl
  rcases c.valid with h | h
  · have : c.val.toNat < 55296 := h
    omega
  · obtain ⟨h1, h2⟩ := h
    have : c.val.toNat < 1114112 := h2
    omega

/-- Decoding one step from a stream that starts with the encoding of a
character peels off exactly that character. -/
theorem decodeStep_encodeChar (c : Char) (rest : List Nat) :
    decodeStep (utf8EncodeChar c ++ rest) = some (c, rest) := by
  have hlt := char_toNat_lt c
  by_cases h1 : c.toNat < 128
  · have e : utf8EncodeChar c = [c.toNat] := by
      unfold utf8EncodeChar; rw [if_pos h1]
    rw [e]
    simp only [List.cons_append, List.nil_append]
    rw [decodeStep.eq_def]
    dsimp only
    rw [if_pos h1, Char.ofNat_toNat]
  · by_cases h2 : c.toNat < 2048
    · have e : utf8EncodeChar c = [192 + c.toNat / 64, 128 + c.toNat % 64] := by
        unfold utf8EncodeChar; rw [if_neg h1, if_pos h2]
      rw [e]
      simp only [List.cons_append, List.nil_append]
      have c1 : ¬ (192 + c.toNat / 64 < 128) := by omega
      have c2 : ¬ (192 + c.toNat / 64 < 192) := by omega
      have c3 : 192 + c.toNat / 64 < 224 := by omega
      have c4 : 128 ≤ 128 + c.toNat % 64 ∧ 128 + c.toNat % 64 < 192 := by omega
      have cv : (192 + c.toNat / 64 - 192) * 64 + (128 + c.toNat % 64 - 128) = c.toNat := by
        omega
      rw [decodeStep.eq_def]
      dsimp only
      rw [if_neg c1, if_neg c2, if_pos c3, if_pos c4, cv, Char.ofNat_toNat]
    · by_cases h3 : c.toNat < 65536
      · have e : utf8EncodeChar c
            = [224 + c.toNat / 4096, 128 + c.toNat / 64 % 64, 128 + c.toNat % 64] := by
          unfold utf8EncodeChar; rw [if_neg h1, if_neg h2, if_pos h3]
        rw [e]
        simp only [List.cons_append, List.nil_append]
        have c1 : ¬ (224 + c.toNat / 4096 < 128) := by omega
        have c2 : ¬ (224 + c.toNat / 4096 < 192) := by omega
        have c3 : ¬ (224 + c.toNat / 4096 < 224) := by omega
        have c4 : 224 + c.toNat / 4096 < 240 := by omega
        have c5 : (128 ≤ 128 + c.toNat / 64 % 64 ∧ 128 + c.toNat / 64 % 64 < 192) ∧
            128 ≤ 128 + c.toNat % 64 ∧ 128 + c.toNat % 64 < 192 := by omega
        have cv : (224 + c.toNat / 4096 - 224) * 4096 + (128 + c.toNat / 64 % 64 - 128) * 64 +
            (128 + c.toNat % 64 - 128) = c.toNat := by omega
        rw [decodeStep.eq_def]
        dsimp only
        rw [if_neg c1, if_neg c2, if_neg c3, if_pos c4, if_pos c5, cv, Char.ofNat_toNat]
      · have e : utf8EncodeChar c
            = [240 + c.toNat / 262144, 128 + c.toNat / 4096 % 64, 128 + c.toNat / 64 % 64,
                128 + c.toNat % 64] := by
          unfold utf8EncodeChar; rw [if_neg h1, if_neg h2, if_neg h3]
        rw [e]
        simp only [List.cons_append, List.nil_append]
        have c1 : ¬ (240 + c.toNat / 262144 < 128) := by omega
        have c2 : ¬ (240 + c.toNat / 262144 < 192) := by omega
        have c3 : ¬ (240 + c.toNat / 262144 < 224) := by omega
        have c4 : ¬ (240 + c.toNat / 262144 < 240) := by omega
        have c5 : 240 + c.toNat / 262144 < 248 := by omega
        have c6 : (128 ≤ 128 + c.toNat / 4096 % 64 ∧ 128 + c.toNat / 4096 % 64 < 192) ∧
            (128 ≤ 128 + c.toNat / 64 % 64 ∧ 128 + c.toNat / 64 % 64 < 192) ∧
            128 ≤ 128 + c.toNat % 64 ∧ 128 + c.toNat % 64 < 192 := by omega
        have cv : (240 + c.toNat / 262144 - 240) * 262144 +
            (128 + c.toNat / 4096 % 64 - 128) * 4096 + (128 + c.toNat / 64 % 64 - 128) * 64 +
            (128 + c.toNat % 64 - 128) = c.toNat := by omega
        rw [decodeStep.eq_def]
        dsimp only
        rw [if_neg c1, if_neg c2, if_neg c3, if_neg c4, if_pos c5, if_pos c6, cv,
          Char.ofNat_toNat]

theorem utf8EncodeChar_cons (c : Char) : ∃ b t, utf8EncodeChar c = b :: t := by
  unfold utf8EncodeChar
  split_ifs <;> exact ⟨_, _, rfl⟩

/-- Any fuel at least the length of the encoded stream decodes it back to the
original characters. -/
theorem utf8DecodeLoop_encodeList :
    ∀ (cs : List Char) (fuel : Nat), (utf8EncodeList cs).length ≤ fuel →
      utf8DecodeLoop fuel (utf8EncodeList cs) = some cs := by
  intro cs
  induction cs with
  | nil =>
    intro fuel _
    cases fuel <;> rfl
  | cons c cs ih =>
    intro fuel hfuel
    obtain ⟨b, t, hbt⟩ := utf8EncodeChar_cons c
    rw [utf8EncodeList] at hfuel ⊢
    rw [List.length_append, hbt] at hfuel
    cases fuel with
    | zero => simp at hfuel
    | succ f =>
      rw [hbt, List.cons_append, utf8DecodeLoop, ← List.cons_append, ← hbt,
        decodeStep_encodeChar]
      dsimp only
      rw [ih f (by simp at hfuel; omega)]

/-- UTF-8 decoding inverts UTF-8 encoding on character lists. -/
theorem utf8DecodeList_encodeList (cs : List Char) :
    utf8DecodeList (utf8EncodeList cs) = some cs := by
  rw [utf8DecodeList]
  exact utf8DecodeLoop_encodeList cs _ (Nat.le_refl _)

/-- UTF-8 decoding inverts UTF-8 encoding on strings: the written summary bytes
decode back to the identical string. -/
theorem utf8Decode_utf8Encode (s : String) : utf8Decode (utf8Encode s) = some s := by
  cases s with
  | mk data => simp [utf8Decode, utf8Encode, utf8DecodeList_encodeList]

/-- Reading back the key just written returns exactly the written body and
content type. -/
theorem get_put_object (st : Store) (b k : String) (body : List Nat) (ct : String) :
    get_object (put_object st b k body ct) b k = some (body, ct) := by
  simp [get_object, put_object, List.find?]

theorem unquotePlusAux_cons_plus (rest : List Char) :
    unquotePlusAux ('+' :: rest) = ' ' :: unquotePlusAux rest := rfl

theorem unquotePlusAux_cons_other (c : Char) (rest : List Char)
    (h1 : c ≠ '+') (h2 : c ≠ '%') :
    unquotePlusAux (c :: rest) = c :: unquotePlusAux rest := by
  cases rest with
  | nil => simp [unquotePlusAux, h1, h2]
  | cons d rest2 =>
    cases rest2 with
    | nil => simp [unquotePlusAux, h1, h2]
    | cons e rest3 => simp [unquotePlusAux, h1, h2]

/-- On a character list without percent signs, `unquote_plus` is exactly the
pointwise plus-to-space substitution. -/
theorem unquotePlusAux_no_percent :
    ∀ l : List Char, '%' ∉ l →
      unquotePlusAux l = l.map (fun c => if c = '+' then ' ' else c) := by
  intro l
  induction l with
  | nil => intro _; rfl
  | cons c rest ih =>
    intro h
    have hc : c ≠ '%' := fun hh => h (by simp [hh])
    have hrest : '%' ∉ rest := fun hm => h (List.mem_cons_of_mem _ hm)
    by_cases hplus : c = '+'
    · subst hplus
      rw [unquotePlusAux_cons_plus, ih hrest]
      simp
    · rw [unquotePlusAux_cons_other c rest hplus hc, ih hrest]
      simp [hplus]

theorem map_plus_ne (l : List Char) (h : '+' ∈ l) :
    l.map (fun c => if c = '+' then ' ' else c) ≠ l := by
  induction l with
  | nil => simp at h
  | cons c rest ih =>
    intro heq
    simp only [List.map_cons, List.cons.injEq] at heq
    by_cases hc : c = '+'
    · rw [hc] at heq
      simpa using heq.1
    · rcases List.mem_cons.mp h with h1 | h1
      · exact hc h1.symm
      · exact ih h1 heq.2

theorem unquote_plus_no_percent (key : String) (h : '%' ∉ key.data) :
    unquote_plus key = plus2space key := by
  rw [unquote_plus, plus2space, unquotePlusAux_no_percent key.data h]

theorem unquote_plus_plus_ne (key : String) (hp : '%' ∉ key.data) (h : '+' ∈ key.data) :
    unquote_plus key ≠ key := by
  rw [unquote_plus_no_percent key hp]
  intro heq
  have hdata : key.data.map (fun c => if c = '+' then ' ' else c) = key.data := by
    have := congrArg String.data heq
    simpa [plus2space] using this
  exact map_plus_ne key.data h hdata

theorem unquotePlusAux_percent_hex (h1 h2 : Char) (rest : List Char) (a b : Nat)
    (ha : hexDigit h1 = some a) (hb : hexDigit h2 = some b) :
    unquotePlusAux ('%' :: h1 :: h2 :: rest)
      = Char.ofNat (16 * a + b) :: unquotePlusAux rest := by
  simp [unquotePlusAux, ha, hb]

theorem unquotePlusAux_percent_nonhex (h1 h2 : Char) (rest : List Char)
    (h : hexDigit h1 = none ∨ hexDigit h2 = none) :
    unquotePlusAux ('%' :: h1 :: h2 :: rest) = '%' :: unquotePlusAux (h1 :: h2 :: rest) := by
  rcases h with h | h
  · simp [unquotePlusAux, h]
  · cases ha : hexDigit h1 <;> simp [unquotePlusAux, ha, h]

/-- Decoding never lengthens a key (a plus or an ordinary character maps to
one character, an escape maps three characters to one). -/
theorem unquotePlusAux_length :
    ∀ (n : Nat) (l : List Char), l.length ≤ n → (unquotePlusAux l).length ≤ l.length := by
  intro n
  induction n with
  | zero =>
    intro l hl
    have hnil : l = [] := List.eq_nil_of_length_eq_zero (by omega)
    subst hnil
    simp [unquotePlusAux]
  | succ n ih =>
    intro l hl
    cases l with
    | nil => simp [unquotePlusAux]
    | cons c rest =>
      by_cases hc : c = '+'
      · subst hc
        rw [unquotePlusAux_cons_plus]
        have := ih rest (by simp at hl; omega)
        simp only [List.length_cons]
        omega
      · by_cases hp : c = '%'
        · subst hp
          cases rest with
          | nil => simp [unquotePlusAux]
          | cons h1 rest1 =>
            cases rest1 with
            | nil =>
              rw [show unquotePlusAux ('%' :: h1 :: [])
                  = '%' :: unquotePlusAux [h1] from rfl]
              have := ih [h1] (by simp at hl ⊢; omega)
              simp only [List.length_cons] at this ⊢
              omega
            | cons h2 rest2 =>
              rcases ha : hexDigit h1 with _ | a
              · rw [unquotePlusAux_percent_nonhex h1 h2 rest2 (Or.inl ha)]
                have := ih (h1 :: h2 :: rest2) (by simp at hl ⊢; omega)
                simp only [List.length_cons] at this ⊢
                omega
              · rcases hb : hexDigit h2 with _ | b2
                · rw [unquotePlusAux_percent_nonhex h1 h2 rest2 (Or.inr hb)]
                  have := ih (h1 :: h2 :: rest2) (by simp at hl ⊢; omega)
                  simp only [List.length_cons] at this ⊢
                  omega
                · rw [unquotePlusAux_percent_hex h1 h2 rest2 a b2 ha hb]
                  have := ih rest2 (by simp at hl ⊢; omega)
                  simp only [List.length_cons] at this ⊢
                  omega
        · rw [unquotePlusAux_cons_other c rest hc hp]
          have := ih rest (by simp at hl; omega)
          simp only [List.length_cons]
          omega

theorem hexDigit_plus_none : hexDigit '+' = none := by decide

/-- A character list containing a literal plus is never decoded to itself:
the plus becomes a space, and escapes only shorten the list. -/
theorem unquotePlusAux_plus_ne :
    ∀ (n : Nat) (l : List Char), l.length ≤ n → '+' ∈ l → unquotePlusAux l ≠ l := by
  intro n
  induction n with
  | zero =>
    intro l hl hmem
    have hnil : l = [] := List.eq_nil_of_length_eq_zero (by omega)
    subst hnil
    simp at hmem
  | succ n ih =>
    intro l hl hmem
    cases l with
    | nil => simp at hmem
    | cons c rest =>
      by_cases hc : c = '+'
      · subst hc
        rw [unquotePlusAux_cons_plus]
        intro heq
        have : ' ' = '+' := (List.cons.injEq _ _ _ _ ▸ heq).1
        exact absurd this (by decide)
      · have hmem' : '+' ∈ rest := by
          rcases List.mem_cons.mp hmem with h | h
          · exact absurd h.symm hc
          · exact h
        by_cases hp : c = '%'
        · subst hp
          cases rest with
          | nil => simp at hmem'
          | cons h1 rest1 =>
            cases rest1 with
            | nil =>
              rw [show unquotePlusAux ('%' :: h1 :: [])
                  = '%' :: unquotePlusAux [h1] from rfl]
              intro heq
              have htail : unquotePlusAux [h1] = [h1] :=
                (List.cons.injEq _ _ _ _ ▸ heq).2
              exact ih [h1] (by simp at hl ⊢; omega) hmem' htail
            | cons h2 rest2 =>
              rcases ha : hexDigit h1 with _ | a
              · rw [unquotePlusAux_percent_nonhex h1 h2 rest2 (Or.inl ha)]
                intro heq
                have htail : unquotePlusAux (h1 :: h2 :: rest2) = h1 :: h2 :: rest2 :=
                  (List.cons.injEq _ _ _ _ ▸ heq).2
                exact ih (h1 :: h2 :: rest2) (by simp at hl ⊢; omega) hmem' htail
              · rcases hb : hexDigit h2 with _ | b2
                · rw [unquotePlusAux_percent_nonhex h1 h2 rest2 (Or.inr hb)]
                  intro heq
                  have htail : unquotePlusAux (h1 :: h2 :: rest2) = h1 :: h2 :: rest2 :=
                    (List.cons.injEq _ _ _ _ ▸ heq).2
                  exact ih (h1 :: h2 :: rest2) (by simp at hl ⊢; omega) hmem' htail
                · rw [unquotePlusAux_percent_hex h1 h2 rest2 a b2 ha hb]
                  intro heq
                  have hlen := congrArg List.length heq
                  have hrest2 := unquotePlusAux_length rest2.length rest2 (Nat.le_refl _)
                  simp only [List.length_cons] at hlen
                  omega
        · rw [unquotePlusAux_cons_other c rest hc hp]
          intro heq
          have htail : unquotePlusAux rest = rest :=
            (List.cons.injEq _ _ _ _ ▸ heq).2
          exact ih rest (by simp at hl; omega) hmem' htail

/-- A key containing a literal plus is never returned character-for-character
by the decoder, escapes present or not. -/
theorem unquote_plus_ne_of_plus (key : String) (h : '+' ∈ key.data) :
    unquote_plus key ≠ key := by
  intro heq
  have hdata : unquotePlusAux key.data = key.data := by
    have := congrArg String.data heq
    simpa [unquote_plus] using this
  exact unquotePlusAux_plus_ne key.data.length key.data (Nat.le_refl _) h hdata

/-- With a FAILED final poll status, the handler stops right after the loop:
the error record is returned, the store is untouched, and the trace ends with
the poll calls. -/
theorem handler_failed (env : Env) (store : Store) (event : Json) (b k : String)
    (hdec : decodeEvent event = .ok (b, k)) (hstart : env.startJob = .ok ())
    (hfail : (pollLoop env.statuses ("twilio-" ++ env.jobSuffix) 30 0).1 = JobStatus.FAILED) :
    lambda_handler env store event =
      ⟨errorJson "Transcription failed", store,
        Call.startJob ("twilio-" ++ env.jobSuffix) ("s3://" ++ b ++ "/" ++ k)
            (extensionLower k) "en-US" b
            ("transcripts/" ++ ("twilio-" ++ env.jobSuffix) ++ ".json")
          :: (pollLoop env.statuses ("twilio-" ++ env.jobSuffix) 30 0).2⟩ := by
  unfold lambda_handler
  rw [hdec]
  dsimp only
  rw [hstart]
  dsimp only
  rw [if_pos hfail]
  simp

/-- With a non-FAILED final poll status, the handler always proceeds to fetch
the transcript object. -/
theorem handler_nonfailed_getObject_mem (env : Env) (store : Store) (event : Json)
    (b k : String)
    (hdec : decodeEvent event = .ok (b, k)) (hstart : env.startJob = .ok ())
    (hnf : (pollLoop env.statuses ("twilio-" ++ env.jobSuffix) 30 0).1 ≠ JobStatus.FAILED) :
    Call.getObject b ("transcripts/" ++ ("twilio-" ++ env.jobSuffix) ++ ".json")
      ∈ (lambda_handler env store event).trace := by
  unfold lambda_handler
  rw [hdec]
  dsimp only
  rw [hstart]
  dsimp only
  rw [if_neg hnf]
  repeat' split
  all_goals (try simp)

/-- When the fetched transcript object parses but the transcript path is not
extractable, the handler returns that error, and the trace stops at the fetch:
in particular no summarization and no write happened. -/
theorem handler_extract_error (env : Env) (store : Store) (event : Json)
    (b k : String) (body : List Nat) (ct : String) (tj : Json) (m : String)
    (hdec : decodeEvent event = .ok (b, k)) (hstart : env.startJob = .ok ())
    (hnf : (pollLoop env.statuses ("twilio-" ++ env.jobSuffix) 30 0).1 ≠ JobStatus.FAILED)
    (hget : get_object store b ("transcripts/" ++ ("twilio-" ++ env.jobSuffix) ++ ".json")
      = some (body, ct))
    (hparse : env.parseJson body = .ok tj)
    (hext : extractTranscript tj = .error m) :
    lambda_handler env store event =
      ⟨errorJson m, store,
        Call.startJob ("twilio-" ++ env.jobSuffix) ("s3://" ++ b ++ "/" ++ k)
            (extensionLower k) "en-US" b
            ("transcripts/" ++ ("twilio-" ++ env.jobSuffix) ++ ".json")
          :: ((pollLoop env.statuses ("twilio-" ++ env.jobSuffix) 30 0).2 ++
            [Call.getObject b ("transcripts/" ++ ("twilio-" ++ env.jobSuffix) ++ ".json")])⟩ := by
  unfold lambda_handler
  rw [hdec]
  dsimp only
  rw [hstart]
  dsimp only
  rw [if_neg hnf, hget]
  dsimp only
  rw [hparse]
  dsimp only
  rw [hext]
  simp

/-- The happy path: every stage succeeds, the summary is written UTF-8 encoded
with a text/plain content type under `summaries/{job_name}_summary.txt` in the
same bucket, and the success record points at it. -/
theorem handler_success (env : Env) (store : Store) (event : Json)
    (b k : String) (body : List Nat) (ct : String) (tj : Json) (t summary : String)
    (hdec : decodeEvent event = .ok (b, k)) (hstart : env.startJob = .ok ())
    (hnf : (pollLoop env.statuses ("twilio-" ++ env.jobSuffix) 30 0).1 ≠ JobStatus.FAILED)
    (hget : get_object store b ("transcripts/" ++ ("twilio-" ++ env.jobSuffix) ++ ".json")
      = some (body, ct))
    (hparse : env.parseJson body = .ok tj)
    (hext : extractTranscript tj = .ok t)
    (hsum : env.summarize t = .ok summary)
    (hput : env.putResult = .ok ()) :
    lambda_handler env store event =
      ⟨successJson ("s3://" ++ b ++ "/" ++
          ("summaries/" ++ ("twilio-" ++ env.jobSuffix) ++ "_summary.txt")),
        put_object store b ("summaries/" ++ ("twilio-" ++ env.jobSuffix) ++ "_summary.txt")
          (utf8Encode summary) "text/plain",
        Call.startJob ("twilio-" ++ env.jobSuffix) ("s3://" ++ b ++ "/" ++ k)
            (extensionLower k) "en-US" b
            ("transcripts/" ++ ("twilio-" ++ env.jobSuffix) ++ ".json")
          :: ((pollLoop env.statuses ("twilio-" ++ env.jobSuffix) 30 0).2 ++
            [Call.getObject b ("transcripts/" ++ ("twilio-" ++ env.jobSuffix) ++ ".json"),
             Call.summarizeCall t,
             Call.putObject b ("summaries/" ++ ("twilio-" ++ env.jobSuffix) ++ "_summary.txt")
               (utf8Encode summary) "text/plain"])⟩ := by
  unfold lambda_handler
  rw [hdec]
  dsimp only
  rw [hstart]
  dsimp only
  rw [if_neg hnf, hget]
  dsimp only
  rw [hparse]
  dsimp only
  rw [hext]
  dsimp only
  rw [hsum]
  dsimp only
  rw [hput]
  simp


theorem isTerminal_eq_false (s : JobStatus)
    (h1 : s ≠ JobStatus.COMPLETED) (h2 : s ≠ JobStatus.FAILED) : isTerminal s = false := by
  cases s <;> simp_all [isTerminal]

theorem isTerminal_true_elim (s : JobStatus) (h : isTerminal s = true) :
    s = JobStatus.COMPLETED ∨ s = JobStatus.FAILED := by
  cases s <;> simp_all [isTerminal]

/-- C1: for every trigger event, the top-level handler returns exactly one of
two shapes: on success a record with a `status` field `"success"` and a
`summary_file` field, and on any error raised by any stage a record with a
single `error` field and no `status` field; no exception propagates out of the
handler (it is a total function into these two shapes). -/
theorem C1_result_shape (env : Env) (store : Store) (event : Json) :
    (∃ u, (lambda_handler env store event).result
        = Json.obj [("status", Json.str "success"), ("summary_file", Json.str u)]) ∨
    (∃ m, (lambda_handler env store event).result = Json.obj [("error", Json.str m)]) := by
  unfold lambda_handler
  dsimp only
  repeat' split
  all_goals first
    | exact Or.inl ⟨_, rfl⟩
    | exact Or.inr ⟨_, rfl⟩

/-- C7: for every valid trigger payload with at least one record, the Event
Decoder returns exactly the first record's container name and its
percent-decoded object key (later records are ignored); in particular
`a%2Bb.wav` decodes to `a+b.wav`. -/
theorem C7_event_decoder (b k : String) (rest : List Json) :
    decodeEvent (mkEvent b k rest) = Except.ok (b, unquote_plus k) ∧
    unquote_plus "a%2Bb.wav" = "a+b.wav" :=
  ⟨rfl, rfl⟩

/-- C8: the bytes the Result Writer stores under the derived summary key, when
read back from the same container and key, are exactly the UTF-8 encoding of
the summary, and decoding them as UTF-8 gives back the identical string. -/
theorem C8_round_trip (st : Store) (b jn summary : String) :
    get_object
        (put_object st b ("summaries/" ++ jn ++ "_summary.txt") (utf8Encode summary)
          "text/plain")
        b ("summaries/" ++ jn ++ "_summary.txt")
      = some (utf8Encode summary, "text/plain") ∧
    utf8Decode (utf8Encode summary) = some summary :=
  ⟨get_put_object st b ("summaries/" ++ jn ++ "_summary.txt") (utf8Encode summary) "text/plain",
    utf8Decode_utf8Encode summary⟩

/-- C10: the key decoding has plus-to-space semantics: on any key free of
percent escapes it is the pointwise plus-to-space substitution, so a key
containing a literal `+` is not returned character-for-character; in
particular `a+b.wav` decodes to `a b.wav`. -/
theorem C10_plus_to_space (key : String) :
    ('%' ∉ key.data → unquote_plus key = plus2space key) ∧
    ('+' ∈ key.data → unquote_plus key ≠ key) ∧
    unquote_plus "a+b.wav" = "a b.wav" :=
  ⟨unquote_plus_no_percent key,
    unquote_plus_ne_of_plus key,
    rfl⟩

theorem C10_plus_to_space_witness :
    unquote_plus "a+b.wav" = plus2space "a+b.wav" ∧ unquote_plus "a+b.wav" ≠ "a+b.wav" := by
  have h := C10_plus_to_space "a+b.wav"
  exact ⟨h.1 (by decide), h.2.1 (by decide)⟩

/-- C4: whenever the first observed terminal status is FAILED (possibly on the
first poll), the handler raises "Transcription failed", the overall result is
that error record, no summarization call is made, and no object at all (in
particular none under `summaries/`) is written. -/
theorem C4_failed_aborts (env : Env) (store : Store) (event : Json) (b k : String) (j : Nat)
    (hdec : decodeEvent event = .ok (b, k)) (hstart : env.startJob = .ok ())
    (hj : j < 30) (hfail : env.statuses j = JobStatus.FAILED)
    (hbefore : ∀ d, d < j →
      env.statuses d ≠ JobStatus.COMPLETED ∧ env.statuses d ≠ JobStatus.FAILED) :
    (lambda_handler env store event).result = errorJson "Transcription failed" ∧
    (∀ t, Call.summarizeCall t ∉ (lambda_handler env store event).trace) ∧
    (∀ bb kk bd ct, Call.putObject bb kk bd ct ∉ (lambda_handler env store event).trace) := by
  have hterm : isTerminal (env.statuses (0 + j)) = true := by
    rw [Nat.zero_add, hfail]; rfl
  have hbef : ∀ d, d < j → isTerminal (env.statuses (0 + d)) = false := by
    intro d hd
    rw [Nat.zero_add]
    exact isTerminal_eq_false _ (hbefore d hd).1 (hbefore d hd).2
  have hpoll :=
    pollLoop_first_terminal env.statuses ("twilio-" ++ env.jobSuffix) j 30 0 hj hterm hbef
  rw [Nat.zero_add] at hpoll
  have hfail' : (pollLoop env.statuses ("twilio-" ++ env.jobSuffix) 30 0).1
      = JobStatus.FAILED := by
    rw [hpoll]; exact hfail
  rw [handler_failed env store event b k hdec hstart hfail']
  dsimp only
  refine ⟨rfl, ?_, ?_⟩
  · intro t hmem
    rcases List.mem_cons.mp hmem with h | h
    · exact Call.noConfusion h
    · rcases pollLoop_mem env.statuses _ 30 0 _ h with h1 | h1 <;> exact Call.noConfusion h1
  · intro bb kk bd ct hmem
    rcases List.mem_cons.mp hmem with h | h
    · exact Call.noConfusion h
    · rcases pollLoop_mem env.statuses _ 30 0 _ h with h1 | h1 <;> exact Call.noConfusion h1

theorem C4_failed_aborts_witness :
    (lambda_handler envFirstFailed storeSample eventSample).result
      = errorJson "Transcription failed" ∧
    Call.summarizeCall "hello" ∉ (lambda_handler envFirstFailed storeSample eventSample).trace ∧
    Call.putObject "medrecs" "summaries/twilio-abcd1234_summary.txt" (utf8Encode "S")
        "text/plain"
      ∉ (lambda_handler envFirstFailed storeSample eventSample).trace := by
  have h := C4_failed_aborts envFirstFailed storeSample eventSample "medrecs" "calls/visit1.wav"
    0 rfl rfl (by omega) rfl (by intro d hd; exact absurd hd (Nat.not_lt_zero d))
  exact ⟨h.1, h.2.1 "hello",
    h.2.2 "medrecs" "summaries/twilio-abcd1234_summary.txt" (utf8Encode "S") "text/plain"⟩

/-- C3: the orchestrator polls at most 30 times, stops at the first poll whose
status is COMPLETED or FAILED (after `j` non-terminal polls it has made exactly
`j + 1` status calls), sleeps a fixed 10 seconds between polls, and on
COMPLETED proceeds to the transcript fetch. -/
theorem C3_polling (env : Env) (store : Store) (event : Json) (b k : String) (j : Nat)
    (hdec : decodeEvent event = .ok (b, k)) (hstart : env.startJob = .ok ())
    (hj : j < 30) (hterm : isTerminal (env.statuses j) = true)
    (hbefore : ∀ d, d < j → isTerminal (env.statuses d) = false) :
    countPolls (pollLoop env.statuses ("twilio-" ++ env.jobSuffix) 30 0).2 = j + 1 ∧
    countPolls (pollLoop env.statuses ("twilio-" ++ env.jobSuffix) 30 0).2 ≤ 30 ∧
    (pollLoop env.statuses ("twilio-" ++ env.jobSuffix) 30 0).1 = env.statuses j ∧
    (∀ c ∈ (pollLoop env.statuses ("twilio-" ++ env.jobSuffix) 30 0).2,
      c = Call.getStatus ("twilio-" ++ env.jobSuffix) ∨ c = Call.sleep 10) ∧
    (env.statuses j = JobStatus.COMPLETED →
      Call.getObject b ("transcripts/" ++ ("twilio-" ++ env.jobSuffix) ++ ".json")
        ∈ (lambda_handler env store event).trace) := by
  have hterm0 : isTerminal (env.statuses (0 + j)) = true := by rwa [Nat.zero_add]
  have hbef0 : ∀ d, d < j → isTerminal (env.statuses (0 + d)) = false := by
    intro d hd; rw [Nat.zero_add]; exact hbefore d hd
  have hpoll :=
    pollLoop_first_terminal env.statuses ("twilio-" ++ env.jobSuffix) j 30 0 hj hterm0 hbef0
  rw [Nat.zero_add] at hpoll
  refine ⟨?_, ?_, ?_, ?_, ?_⟩
  · rw [hpoll]; exact countPolls_pollTrace _ j
  · exact pollLoop_polls_le env.statuses _ 30 0
  · rw [hpoll]
  · intro c hc; exact pollLoop_mem env.statuses _ 30 0 c hc
  · intro hC
    apply handler_nonfailed_getObject_mem env store event b k hdec hstart
    rw [hpoll]
    simp [hC]

theorem C3_polling_witness :
    countPolls
        (pollLoop envQuickComplete.statuses ("twilio-" ++ envQuickComplete.jobSuffix) 30 0).2
      = 1 + 1 ∧
    (pollLoop envQuickComplete.statuses ("twilio-" ++ envQuickComplete.jobSuffix) 30 0).1
      = envQuickComplete.statuses 1 ∧
    Call.getObject "medrecs"
        ("transcripts/" ++ ("twilio-" ++ envQuickComplete.jobSuffix) ++ ".json")
      ∈ (lambda_handler envQuickComplete storeSample eventSample).trace := by
  have h := C3_polling envQuickComplete storeSample eventSample "medrecs" "calls/visit1.wav" 1
    rfl rfl (by omega) (by decide)
    (by intro d hd
        have hd0 : d = 0 := by omega
        subst hd0
        decide)
  exact ⟨h.1, h.2.2.1, h.2.2.2.2 (by decide)⟩

/-- C5: if the polled status never leaves IN_PROGRESS, the loop exits after
exactly 30 polls with last status IN_PROGRESS, the transcription-failure error
is not raised, and execution proceeds to the transcript fetch (there is no
separate timeout branch). -/
theorem C5_budget_exhaustion (env : Env) (store : Store) (event : Json) (b k : String)
    (hdec : decodeEvent event = .ok (b, k)) (hstart : env.startJob = .ok ())
    (hip : ∀ i, env.statuses i = JobStatus.IN_PROGRESS) :
    (pollLoop env.statuses ("twilio-" ++ env.jobSuffix) 30 0).1 = JobStatus.IN_PROGRESS ∧
    countPolls (pollLoop env.statuses ("twilio-" ++ env.jobSuffix) 30 0).2 = 30 ∧
    Call.getObject b ("transcripts/" ++ ("twilio-" ++ env.jobSuffix) ++ ".json")
      ∈ (lambda_handler env store event).trace := by
  have hnt : ∀ d, d < 30 → isTerminal (env.statuses (0 + d)) = false := by
    intro d _; rw [Nat.zero_add, hip d]; rfl
  have hpoll := pollLoop_exhausted env.statuses ("twilio-" ++ env.jobSuffix) 30 0 (by omega) hnt
  refine ⟨?_, ?_, ?_⟩
  · rw [hpoll]; exact hip _
  · rw [hpoll]; exact countPolls_pollTraceEx _ 30
  · apply handler_nonfailed_getObject_mem env store event b k hdec hstart
    rw [hpoll]
    simp [hip]

theorem C5_budget_exhaustion_witness :
    (pollLoop envAllInProgress.statuses ("twilio-" ++ envAllInProgress.jobSuffix) 30 0).1
      = JobStatus.IN_PROGRESS ∧
    countPolls
        (pollLoop envAllInProgress.statuses ("twilio-" ++ envAllInProgress.jobSuffix) 30 0).2
      = 30 ∧
    Call.getObject "medrecs"
        ("transcripts/" ++ ("twilio-" ++ envAllInProgress.jobSuffix) ++ ".json")
      ∈ (lambda_handler envAllInProgress storeSample eventSample).trace :=
  C5_budget_exhaustion envAllInProgress storeSample eventSample "medrecs" "calls/visit1.wav"
    rfl rfl (fun _ => rfl)

/-- A successful extraction implies the transcript path is structurally
present with a string value. -/
theorem extract_ok_present (j : Json) (s : String) (h : extractTranscript j = .ok s) :
    transcriptPathPresent j := by
  unfold extractTranscript at h
  cases h1 : j.getField "results" with
  | error m => rw [h1] at h; simp at h
  | ok results =>
    rw [h1] at h
    dsimp only at h
    cases h2 : results.getField "transcripts" with
    | error m => rw [h2] at h; simp at h
    | ok transcripts =>
      rw [h2] at h
      dsimp only at h
      cases h3 : transcripts.getIndex 0 with
      | error m => rw [h3] at h; simp at h
      | ok t0 =>
        rw [h3] at h
        dsimp only at h
        cases h4 : t0.getField "transcript" with
        | error m => rw [h4] at h; simp at h
        | ok tVal =>
          rw [h4] at h
          dsimp only at h
          cases tVal with
          | str s2 =>
            have hs : s2 = s := by simpa [Json.getStr] using h
            exact ⟨results, transcripts, t0, s, h1, h2, h3, by rw [h4, hs]⟩
          | null => simp [Json.getStr] at h
          | bool bb => simp [Json.getStr] at h
          | num n => simp [Json.getStr] at h
          | arr es => simp [Json.getStr] at h
          | obj fs => simp [Json.getStr] at h

/-- C6: whenever the fetched transcript object parses to a JSON value in which
the path `results.transcripts[0].transcript` is absent (missing key, empty
list, non-string leaf), the Transcript Fetcher raises a shape error rather
than defaulting, the overall result is that error record, and neither a
summarization call nor a write happens. -/
theorem C6_shape_error (env : Env) (store : Store) (event : Json)
    (b k : String) (body : List Nat) (ct : String) (tj : Json)
    (hdec : decodeEvent event = .ok (b, k)) (hstart : env.startJob = .ok ())
    (hnf : (pollLoop env.statuses ("twilio-" ++ env.jobSuffix) 30 0).1 ≠ JobStatus.FAILED)
    (hget : get_object store b ("transcripts/" ++ ("twilio-" ++ env.jobSuffix) ++ ".json")
      = some (body, ct))
    (hparse : env.parseJson body = .ok tj)
    (habs : ¬ transcriptPathPresent tj) :
    (∃ m, extractTranscript tj = .error m ∧
      (lambda_handler env store event).result = errorJson m) ∧
    (∀ t, Call.summarizeCall t ∉ (lambda_handler env store event).trace) ∧
    (∀ bb kk bd ct2, Call.putObject bb kk bd ct2 ∉ (lambda_handler env store event).trace) := by
  have hext : ∃ m, extractTranscript tj = .error m := by
    cases hres : extractTranscript tj with
    | error m => exact ⟨m, rfl⟩
    | ok s => exact absurd (extract_ok_present tj s hres) habs
  obtain ⟨m, hm⟩ := hext
  rw [handler_extract_error env store event b k body ct tj m hdec hstart hnf hget hparse hm]
  dsimp only
  refine ⟨⟨m, hm, rfl⟩, ?_, ?_⟩
  · intro t hmem
    rcases List.mem_cons.mp hmem with h | h
    · exact Call.noConfusion h
    · rcases List.mem_append.mp h with h | h
      · rcases pollLoop_mem env.statuses _ 30 0 _ h with h1 | h1 <;> exact Call.noConfusion h1
      · exact Call.noConfusion (List.mem_singleton.mp h)
  · intro bb kk bd ct2 hmem
    rcases List.mem_cons.mp hmem with h | h
    · exact Call.noConfusion h
    · rcases List.mem_append.mp h with h | h
      · rcases pollLoop_mem env.statuses _ 30 0 _ h with h1 | h1 <;> exact Call.noConfusion h1
      · exact Call.noConfusion (List.mem_singleton.mp h)

theorem C6_shape_error_witness :
    extractTranscript tjNoTranscript = Except.error "IndexError: list index out of range" ∧
    (lambda_handler envNoTranscript storeSample eventSample).result
      = errorJson "IndexError: list index out of range" ∧
    Call.summarizeCall "hello"
      ∉ (lambda_handler envNoTranscript storeSample eventSample).trace := by
  have habs : ¬ transcriptPathPresent tjNoTranscript := by
    rintro ⟨r, ts, t0, s, h1, h2, h3, h4⟩
    rw [show tjNoTranscript.getField "results"
        = Except.ok (Json.obj [("transcripts", Json.arr [])]) from rfl] at h1
    injection h1 with h1
    subst h1
    rw [show (Json.obj [("transcripts", Json.arr [])]).getField "transcripts"
        = Except.ok (Json.arr []) from rfl] at h2
    injection h2 with h2
    subst h2
    rw [show (Json.arr []).getIndex 0
        = Except.error "IndexError: list index out of range" from rfl] at h3
    exact Except.noConfusion h3
  have h := C6_shape_error envNoTranscript storeSample eventSample "medrecs" "calls/visit1.wav"
    [] "application/json" tjNoTranscript rfl rfl (by decide) rfl rfl habs
  obtain ⟨⟨m, hm1, hm2⟩, hns, _⟩ := h
  have hextc : extractTranscript tjNoTranscript
      = Except.error "IndexError: list index out of range" := rfl
  injection hm1.symm.trans hextc with hme
  subst hme
  exact ⟨hextc, hm2, hns "hello"⟩

/-- C9: on the success path the Result Writer stores the summary, UTF-8
encoded with a text/plain content type, in the same container as the audio
object under exactly `summaries/{jobId}_summary.txt`, and the success record's
`summary_file` field is the fully qualified location of that object. -/
theorem C9_result_writer (env : Env) (store : Store) (event : Json)
    (b k : String) (body : List Nat) (ct : String) (tj : Json) (t summary : String)
    (hdec : decodeEvent event = .ok (b, k)) (hstart : env.startJob = .ok ())
    (hnf : (pollLoop env.statuses ("twilio-" ++ env.jobSuffix) 30 0).1 ≠ JobStatus.FAILED)
    (hget : get_object store b ("transcripts/" ++ ("twilio-" ++ env.jobSuffix) ++ ".json")
      = some (body, ct))
    (hparse : env.parseJson body = .ok tj)
    (hext : extractTranscript tj = .ok t)
    (hsum : env.summarize t = .ok summary)
    (hput : env.putResult = .ok ()) :
    get_object (lambda_handler env store event).store b
        ("summaries/" ++ ("twilio-" ++ env.jobSuffix) ++ "_summary.txt")
      = some (utf8Encode summary, "text/plain") ∧
    (lambda_handler env store event).result
      = successJson ("s3://" ++ b ++ "/" ++
          ("summaries/" ++ ("twilio-" ++ env.jobSuffix) ++ "_summary.txt")) ∧
    Call.putObject b ("summaries/" ++ ("twilio-" ++ env.jobSuffix) ++ "_summary.txt")
        (utf8Encode summary) "text/plain"
      ∈ (lambda_handler env store event).trace := by
  rw [handler_success env store event b k body ct tj t summary hdec hstart hnf hget hparse
    hext hsum hput]
  dsimp only
  refine ⟨get_put_object store b _ (utf8Encode summary) "text/plain", rfl, by simp⟩

theorem C9_result_writer_witness :
    get_object (lambda_handler envQuickComplete storeSample eventSample).store "medrecs"
        ("summaries/" ++ ("twilio-" ++ envQuickComplete.jobSuffix) ++ "_summary.txt")
      = some (utf8Encode "S", "text/plain") ∧
    (lambda_handler envQuickComplete storeSample eventSample).result
      = successJson ("s3://" ++ "medrecs" ++ "/" ++
          ("summaries/" ++ ("twilio-" ++ envQuickComplete.jobSuffix) ++ "_summary.txt")) := by
  have h := C9_result_writer envQuickComplete storeSample eventSample "medrecs"
    "calls/visit1.wav" [] "application/json" tjSample "hello" "S" rfl rfl (by decide) rfl rfl
    rfl rfl rfl
  exact ⟨h.1, h.2.1⟩

/-- A decode failure returns the error record before any external call. -/
theorem handler_decode_error (env : Env) (store : Store) (event : Json) (m : String)
    (h : decodeEvent event = .error m) :
    lambda_handler env store event = ⟨errorJson m, store, []⟩ := by
  unfold lambda_handler
  rw [h]

/-- A failing job submission returns its error with only the submission call
traced. -/
theorem handler_start_error (env : Env) (store : Store) (event : Json) (b k m : String)
    (hdec : decodeEvent event = .ok (b, k)) (h : env.startJob = .error m) :
    lambda_handler env store event =
      ⟨errorJson m, store,
        [Call.startJob ("twilio-" ++ env.jobSuffix) ("s3://" ++ b ++ "/" ++ k)
          (extensionLower k) "en-US" b
          ("transcripts/" ++ ("twilio-" ++ env.jobSuffix) ++ ".json")]⟩ := by
  unfold lambda_handler
  rw [hdec]
  dsimp only
  rw [h]

/-- If the poll loop ends on FAILED, no summarization call and no write ever
appears in the trace, whatever the earlier stages did. -/
theorem handler_failed_no_summarize (env : Env) (store : Store) (event : Json)
    (hfail : (pollLoop env.statuses ("twilio-" ++ env.jobSuffix) 30 0).1 = JobStatus.FAILED) :
    (∀ t, Call.summarizeCall t ∉ (lambda_handler env store event).trace) ∧
    (∀ bb kk bd ct, Call.putObject bb kk bd ct ∉ (lambda_handler env store event).trace) := by
  cases hdec : decodeEvent event with
  | error m =>
    rw [handler_decode_error env store event m hdec]
    constructor <;> (intro _; try intro _ _ _) <;> simp
  | ok bk =>
    obtain ⟨b, k⟩ := bk
    cases hstart : env.startJob with
    | error m =>
      rw [handler_start_error env store event b k m hdec hstart]
      dsimp only
      constructor
      · intro t hmem
        exact Call.noConfusion (List.mem_singleton.mp hmem)
      · intro bb kk bd ct hmem
        exact Call.noConfusion (List.mem_singleton.mp hmem)
    | ok u =>
      cases u
      rw [handler_failed env store event b k hdec hstart hfail]
      dsimp only
      constructor
      · intro t hmem
        rcases List.mem_cons.mp hmem with h | h
        · exact Call.noConfusion h
        · rcases pollLoop_mem env.statuses _ 30 0 _ h with h1 | h1 <;> exact Call.noConfusion h1
      · intro bb kk bd ct hmem
        rcases List.mem_cons.mp hmem with h | h
        · exact Call.noConfusion h
        · rcases pollLoop_mem env.statuses _ 30 0 _ h with h1 | h1 <;> exact Call.noConfusion h1

/-- C2 counterexample: a status sequence that never reaches a terminal state
within the 30-attempt budget (every poll reports IN_PROGRESS), together with a
transcript object that is already present, makes the handler run the
Summarizer and the Result Writer and return success — so the claim as stated
is false on the code. -/
theorem C2_counterexample_summarizer_runs :
    countPolls
        (pollLoop envAllInProgress.statuses ("twilio-" ++ envAllInProgress.jobSuffix) 30 0).2
      = 30 ∧
    (pollLoop envAllInProgress.statuses ("twilio-" ++ envAllInProgress.jobSuffix) 30 0).1
      = JobStatus.IN_PROGRESS ∧
    Call.summarizeCall "hello"
      ∈ (lambda_handler envAllInProgress storeSample eventSample).trace ∧
    Call.putObject "medrecs" "summaries/twilio-abcd1234_summary.txt" (utf8Encode "S")
        "text/plain"
      ∈ (lambda_handler envAllInProgress storeSample eventSample).trace ∧
    (lambda_handler envAllInProgress storeSample eventSample).result
      = successJson "s3://medrecs/summaries/twilio-abcd1234_summary.txt" :=
  ⟨by decide, rfl, by decide, by decide, rfl⟩

/-- C2 (amended): the Summarizer and Result Writer never execute when the poll
loop ends on FAILED; and whenever the Summarizer executes, the loop ended
non-FAILED — either it observed COMPLETED, or it exhausted all 30 attempts on a
non-terminal status.  (The original claim also forbade summarization when no
terminal state is observed within the budget; the code instead proceeds to the
fetch in that case, see the counterexample.) -/
theorem C2_summary_gating (env : Env) (store : Store) (event : Json) :
    ((pollLoop env.statuses ("twilio-" ++ env.jobSuffix) 30 0).1 = JobStatus.FAILED →
      (∀ t, Call.summarizeCall t ∉ (lambda_handler env store event).trace) ∧
      (∀ bb kk bd ct, Call.putObject bb kk bd ct ∉ (lambda_handler env store event).trace)) ∧
    (∀ t, Call.summarizeCall t ∈ (lambda_handler env store event).trace →
      (pollLoop env.statuses ("twilio-" ++ env.jobSuffix) 30 0).1 ≠ JobStatus.FAILED ∧
      ((pollLoop env.statuses ("twilio-" ++ env.jobSuffix) 30 0).1 = JobStatus.COMPLETED ∨
        countPolls (pollLoop env.statuses ("twilio-" ++ env.jobSuffix) 30 0).2 = 30)) := by
  constructor
  · exact handler_failed_no_summarize env store event
  · intro t hmem
    have hnf : (pollLoop env.statuses ("twilio-" ++ env.jobSuffix) 30 0).1
        ≠ JobStatus.FAILED := by
      intro hfail
      exact (handler_failed_no_summarize env store event hfail).1 t hmem
    refine ⟨hnf, ?_⟩
    by_cases hterm :
        isTerminal (pollLoop env.statuses ("twilio-" ++ env.jobSuffix) 30 0).1 = true
    · rcases isTerminal_true_elim _ hterm with h | h
      · exact Or.inl h
      · exact absurd h hnf
    · simp only [Bool.not_eq_true] at hterm
      exact Or.inr (pollLoop_nonterminal_polls env.statuses _ 30 0 (by omega) hterm)

theorem C2_summary_gating_witness :
    Call.summarizeCall "hello" ∉ (lambda_handler envFirstFailed storeSample eventSample).trace ∧
    (pollLoop envAllInProgress.statuses ("twilio-" ++ envAllInProgress.jobSuffix) 30 0).1
      ≠ JobStatus.FAILED := by
  constructor
  · exact ((C2_summary_gating envFirstFailed storeSample eventSample).1 (by decide)).1 "hello"
  · exact ((C2_summary_gating envAllInProgress storeSample eventSample).2 "hello" (by decide)).1
